import Mathlib

/-!
Verification of the riana isotope peak-search-and-integration engine.

The definitions below shallowly embed the Python sources:
  * `integrate_peaks.py` — class `Peaks`: window arithmetic, intensity
    extraction and trapezoidal integration;
  * `riana/riana.py` — `runriana`: isotopologue-string parsing, thread-count
    selection and the per-fraction orchestration loop.
Floats are modelled as exact rationals (`ℚ`); Python dictionaries as
insertion-ordered association lists; fallible code returns `Option`.
-/

namespace Riana

/-- The hydrogen mass constant `1.007825` hard-coded in
`integrate_peaks.py` lines 124 and 139, as an exact rational. -/
def hydrogen : ℚ := 1.007825

/-- Source `integrate_peaks.py` line 124:
`peptide_prec = (peptide_am + (z * 1.007825)) / z`. -/
def peptide_prec (peptide_am z : ℚ) : ℚ :=
  (peptide_am + z * hydrogen) / z

/-- Source `integrate_peaks.py` line 139:
`peptide_prec_isotopomer_am = peptide_prec + (iso * 1.007825 / z)`, with the
shift-per-isotopologue constant `c` left as a parameter: the source file uses
`c = hydrogen`; the deuterium mode of the surrounding tool substitutes a
different constant for the shift term only (spec §4.1: "a configuration flag
selects the constant, not the algorithm"). -/
def isotopomer_mz (c peptide_am z : ℚ) (iso : ℤ) : ℚ :=
  peptide_prec peptide_am z + iso * c / z

/-- Source `integrate_peaks.py` line 140:
`upper = peptide_prec_isotopomer_am + (peptide_prec_isotopomer_am * (self.mass_tolerance/2))`. -/
def upper_bound (c peptide_am z : ℚ) (iso : ℤ) (mass_tolerance : ℚ) : ℚ :=
  isotopomer_mz c peptide_am z iso + isotopomer_mz c peptide_am z iso * (mass_tolerance / 2)

/-- Source `integrate_peaks.py` line 141:
`lower = peptide_prec_isotopomer_am - (peptide_prec_isotopomer_am * (self.mass_tolerance/2))`. -/
def lower_bound (c peptide_am z : ℚ) (iso : ℤ) (mass_tolerance : ℚ) : ℚ :=
  isotopomer_mz c peptide_am z iso - isotopomer_mz c peptide_am z iso * (mass_tolerance / 2)

/-- Source `integrate_peaks.py` line 143:
`matching_int = sum([I for mz_value, I in self.msdata.get(nearbyScan_id) if upper > mz_value > lower])`.
A peak is a pair (m/z, intensity). -/
def matching_int (peaks : List (ℚ × ℚ)) (lower upper : ℚ) : ℚ :=
  ((peaks.filter (fun p => decide (lower < p.1 ∧ p.1 < upper))).map Prod.snd).sum

/-- One element of the `intensity_over_time` buffer
(`integrate_peaks.py` line 145: `[nearbyScan_rt, iso, matching_int, peptide_prec_isotopomer_am]`). -/
structure Sample where
  rt : ℚ
  iso : ℤ
  intensity : ℚ
  mz : ℚ
deriving DecidableEq, Repr

/-- The in-memory spectral data of one fraction, as `Peaks.__init__` receives
it: `rt_idx` is the insertion-ordered dictionary scan id → retention time
(Python dicts iterate in insertion order, which is what
`self.rt_idx.items()` exposes); `mslvl_idx` the scan id → MS level map;
`msdata` the scan id → peak list map. -/
structure MsRun where
  rt_idx : List (ℕ × ℚ)
  mslvl_idx : ℕ → ℕ
  msdata : ℕ → List (ℚ × ℚ)

/-- Source `Peaks.get_isotopes_from_amrt` (`integrate_peaks.py` lines 109–147),
generalised over the shift constant `c` (the source instantiates
`c = hydrogen`, see `get_isotopes_from_amrt`). `rt_idx.get(peptide_scan)`
returning `None` (anchor scan absent) makes the subsequent arithmetic raise,
so the fallible lookup is embedded as `Option`: `none` is the uncaught
per-row failure. The scan loop walks `rt_idx` in dictionary (insertion)
order; no sorting happens anywhere. -/
def get_isotopes_from_amrt_c (c : ℚ) (run : MsRun) (iso_to_do : List ℤ)
    (rt_tolerance mass_tolerance : ℚ) (peptide_am : ℚ) (peptide_scan : ℕ)
    (z : ℚ) : Option (List Sample) :=
  (run.rt_idx.lookup peptide_scan).map (fun peptide_rt =>
    let nearby_scans := run.rt_idx.filter
      (fun p => decide (|p.2 - peptide_rt| ≤ rt_tolerance ∧ run.mslvl_idx p.1 = 1))
    nearby_scans.flatMap (fun p =>
      iso_to_do.map (fun iso =>
        { rt := p.2
          iso := iso
          intensity := matching_int (run.msdata p.1)
            (lower_bound c peptide_am z iso mass_tolerance)
            (upper_bound c peptide_am z iso mass_tolerance)
          mz := isotopomer_mz c peptide_am z iso })))

/-- Specialisation of `get_isotopes_from_amrt_c` exactly as the source file has it
(shift constant hard-coded to `1.007825`). -/
def get_isotopes_from_amrt (run : MsRun) (iso_to_do : List ℤ)
    (rt_tolerance mass_tolerance : ℚ) (peptide_am : ℚ) (peptide_scan : ℕ)
    (z : ℚ) : Option (List Sample) :=
  get_isotopes_from_amrt_c hydrogen run iso_to_do rt_tolerance mass_tolerance
    peptide_am peptide_scan z

/-- Embedding of `scipy.integrate.trapz(y, x)` on the sample list `[(x0,y0),(x1,y1),...]`:
the composite trapezoidal rule `Σ (x_{i+1} - x_i) * (y_i + y_{i+1}) / 2`;
zero on fewer than two samples. -/
def trapz : List (ℚ × ℚ) → ℚ
  | [] => 0
  | [_] => 0
  | a :: b :: rest => (b.1 - a.1) * (a.2 + b.2) / 2 + trapz (b :: rest)

/-- The body of the isotopologue loop of `Peaks.integrate_isotope_intensity`
(`integrate_peaks.py` lines 160–172): an empty profile gets area 0, a
non-empty profile the trapezoidal area clamped to 0 from below
(`iso_area = max(iso_area, 0)`). -/
def iso_area (profile : List (ℚ × ℚ)) : ℚ :=
  if profile.isEmpty then 0 else max (trapz profile) 0

/-- Source `Peaks.integrate_isotope_intensity` (`integrate_peaks.py` lines 149–174):
for each requested isotopologue `j`, filter the intensity-over-time buffer to
the `(rt, intensity)` profile of `j` (in buffer order — no sorting) and take
its `iso_area`. -/
def integrate_isotope_intensity (iso_to_do : List ℤ)
    (intensity_over_time : List Sample) : List ℚ :=
  iso_to_do.map (fun j =>
    iso_area (((intensity_over_time.filter (fun s => decide (s.iso = j))).map
      (fun s => (s.rt, s.intensity)))))

/-- The value of a non-empty all-digit character sequence, `none` otherwise:
the digit-string core of Python's `int(str)`. -/
def digitsVal (cs : List Char) : Option ℕ :=
  if cs.isEmpty || !(cs.all Char.isDigit) then none
  else some (cs.foldl (fun n c => n * 10 + (c.toNat - 48)) 0)

/-- Whitespace stripping from both ends, as Python's `int(str)` applies it to
its argument. -/
def trimWs (cs : List Char) : List Char :=
  ((cs.dropWhile Char.isWhitespace).reverse.dropWhile Char.isWhitespace).reverse

/-- Python's `int(str)` as `runriana` applies it to one comma-separated token
(`riana/riana.py` line 86): surrounding whitespace is stripped, then an
optional single sign precedes one or more decimal digits; anything else
raises `ValueError` (embedded as `none`). (Digit-group underscores, which
Python also accepts, do not occur in isotopologue strings and are treated as
invalid here.) -/
def pyIntChars (cs : List Char) : Option ℤ :=
  match trimWs cs with
  | '-' :: rest => (digitsVal rest).map (fun n => -(n : ℤ))
  | '+' :: rest => (digitsVal rest).map (fun n => (n : ℤ))
  | t => (digitsVal t).map (fun n => (n : ℤ))

/-- Embedding of Python's `str.split(',')`: `''.split(',') = ['']`, and each
comma opens a new (possibly empty) token. -/
def splitOnComma : List Char → List (List Char)
  | [] => [[]]
  | c :: rest =>
    let r := splitOnComma rest
    if c = ',' then [] :: r
    else
      match r with
      | [] => [[c]]
      | t :: ts => (c :: t) :: ts

/-- The isotopologue-list prologue of `runriana` (`riana/riana.py` lines
81–99): split the `--iso` argument on commas, keep the tokens `int()`
accepts, keep values `<= 15`, abort (`sys.exit`, embedded as `none`) when
nothing is left, then `list(set(...))` + `.sort()` — i.e. the ascending
enumeration of the distinct kept values, embedded as insertion sort of the
deduplicated list. -/
def parse_iso_to_do (s : String) : Option (List ℤ) :=
  let iso_raw := ((splitOnComma s.data).filterMap pyIntChars).filter
    (fun n => decide (n ≤ 15))
  if iso_raw.isEmpty then none
  else some (List.insertionSort (fun a b => a ≤ b) iso_raw.dedup)

/-- The thread-count prologue of `runriana` (`riana/riana.py` lines 143–152).
`args.thread` reaches `runriana` as `some t` when `int()` accepts it and as
`none` when it does not (the `except` branch); `t = 0` (the argparse default,
also standing for an unset flag) is falsy, so `if args.thread:` skips to the
`else` branch. Otherwise `num_threads = max(os.cpu_count() * 4, int(args.thread))`. -/
def num_threads (cpu : ℕ) (thread : Option ℤ) : ℤ :=
  match thread with
  | some t => if t = 0 then (cpu : ℤ) * 4 else max ((cpu : ℤ) * 4) t
  | none => (cpu : ℤ) * 4

/-- One row of the fraction's filtered identification table
(`mzid.curr_frac_filtered_id_df`): the columns the integration task reads. -/
structure IdRow where
  pep_id : ℕ
  peptide_mass : ℚ
  charge : ℚ
  scan : ℕ
deriving DecidableEq, Repr

/-- What one per-peptide task returns: `[index, pep_id, m0, m1, ...]`
(one area per requested isotopologue), plus whether the task logged a
missing-anchor warning. -/
structure TaskResult where
  idx : ℕ
  pep_id : ℕ
  areas : List ℚ
  warned : Bool
deriving DecidableEq, Repr

/-- Modelled from the spec: `integrate.integrate_one` — the per-peptide task
`runriana` maps over the pool (`riana/riana.py` lines 249–256) — is not under
`src/` (only `integrate_peaks.py`'s analogous `Peaks.get_isotopes_from_amrt_wrapper`
is). Per §4.5 it composes the window calculator, scan selector, extractor and
integrator for row `i` of the id table; per §4.1 the deuterium flag selects
the shift constant only; per §7/§9 a lookup failure (anchor scan absent) is
caught inside the task and surfaced as a zero/null result for that row with a
logged warning, never aborting the fraction. -/
def integrate_one (run : MsRun) (id_ : List IdRow) (iso_to_do : List ℤ)
    (rt_tolerance mass_tolerance : ℚ) (deuterium_constant : ℚ) (i : ℕ) :
    TaskResult :=
  let row := id_.getD i ⟨0, 0, 0, 0⟩
  match get_isotopes_from_amrt_c deuterium_constant run iso_to_do rt_tolerance
      mass_tolerance row.peptide_mass row.scan row.charge with
  | none =>
      { idx := i, pep_id := row.pep_id
        areas := iso_to_do.map (fun _ => 0), warned := true }
  | some samples =>
      { idx := i, pep_id := row.pep_id
        areas := integrate_isotope_intensity iso_to_do samples, warned := false }

/-- The result collection of `concurrent.futures.ThreadPoolExecutor.map`
(`riana/riana.py` lines 269–272): tasks finish in some scheduler-dependent
order (`schedule`, the list of row indices in completion order), but each
result is slotted back at its source index, so the list handed to
`pd.DataFrame` is indexed by source row, not by completion order. -/
def pool_collect (n : ℕ) (f : ℕ → TaskResult) (schedule : List ℕ) :
    List (Option TaskResult) :=
  schedule.foldl (fun acc i => acc.set i (some (f i))) (List.replicate n none)

/-- Embedding of `pd.merge(mzid.curr_frac_filtered_id_df, result_df, on='pep_id', how='left')`
(`riana/riana.py` line 280): every left row is emitted in left order, paired
with each right row of equal `pep_id` (or with `none` when no right row
matches). -/
def leftMerge (left : List IdRow) (right : List TaskResult) :
    List (IdRow × Option TaskResult) :=
  left.flatMap (fun l =>
    match right.filter (fun r => decide (r.pep_id = l.pep_id)) with
    | [] => [(l, none)]
    | ms => ms.map (fun m => (l, some m)))

/-- The per-fraction orchestration of `runriana` (`riana/riana.py` lines
247–281): build the task list over `range(len(id_df))`, run it through the
pool (whose collected output order is the input order, see `pool_collect`),
and left-merge the results back onto the id table. `tqdm` is called with
`total=max(loop_)`, and Python's `max` on an empty range raises `ValueError`,
so a fraction with an empty id table aborts (`none`) before producing a
table. -/
def runFraction (run : MsRun) (id_ : List IdRow) (iso_to_do : List ℤ)
    (rt_tolerance mass_tolerance : ℚ) (deuterium_constant : ℚ) :
    Option (List (IdRow × Option TaskResult)) :=
  if id_.isEmpty then none
  else
    some (leftMerge id_ ((List.range id_.length).map
      (integrate_one run id_ iso_to_do rt_tolerance mass_tolerance deuterium_constant)))

/-! Concrete inputs used to instantiate the theorems below. -/

/-- A spectral index whose insertion order is not retention-time order:
scan 1 at 10 min, scan 2 at 9 min, scan 3 at 11 min, all MS level 1, holding
one matching peak each of intensity 2, 4 and 0 respectively. -/
def outoforder_run : MsRun :=
  { rt_idx := [(1, 10), (2, 9), (3, 11)]
    mslvl_idx := fun _ => 1
    msdata := fun i => if i = 1 then [(2, 2)] else if i = 2 then [(2, 4)] else [(2, 0)] }

/-- A two-scan spectral index used to instantiate the orchestrator theorem. -/
def demo_run : MsRun :=
  ⟨[(1, 10), (2, 10)], fun _ => 1, fun i => if i = 1 then [(2, 5)] else [(2, 7)]⟩

/-- Match list for `demo_run`: two rows with distinct peptide ids, both
anchor scans present. -/
def demo_id : List IdRow := [⟨1, 1, 1, 1⟩, ⟨2, 1, 1, 2⟩]

/-- Spectral index for the missing-anchor scenario: only scan 1 exists. -/
def demo_run6 : MsRun := ⟨[(1, 10)], fun _ => 1, fun _ => []⟩

/-- Match list for `demo_run6`: row 0's anchor scan 1 exists, row 1's anchor
scan 2 does not. -/
def demo_id6 : List IdRow := [⟨1, 1, 1, 1⟩, ⟨2, 1, 1, 2⟩]

/-! Helper lemmas. -/

/-- Both branches of `integrate_one` label the result with the row's
peptide id. -/
theorem integrate_one_pep_id (run : MsRun) (id_ : List IdRow) (iso_to_do : List ℤ)
    (rt_tolerance mass_tolerance dc : ℚ) (i : ℕ) :
    (integrate_one run id_ iso_to_do rt_tolerance mass_tolerance dc i).pep_id
      = (id_.getD i ⟨0, 0, 0, 0⟩).pep_id := by
  simp only [integrate_one]
  split <;> rfl

/-- Filtering `range n` for one index below `n` keeps exactly that index. -/
theorem range_filter_eq_single {n i : ℕ} (h : i < n) :
    (List.range n).filter (fun j => decide (j = i)) = [i] := by
  induction n with
  | zero => omega
  | succ m ih =>
    rw [List.range_succ, List.filter_append]
    rcases Nat.lt_succ_iff_lt_or_eq.mp h with h2 | h2
    · rw [ih h2]
      have hmi : m ≠ i := by omega
      simp [hmi]
    · subst h2
      have hnil : (List.range i).filter (fun j => decide (j = i)) = [] := by
        rw [List.filter_eq_nil_iff]
        intro a ha
        simp only [List.mem_range] at ha
        simp
        omega
      rw [hnil]
      simp

/-- With pairwise-distinct peptide ids, the task-result list holds exactly one
result carrying row `i`'s peptide id: row `i`'s own. -/
theorem results_filter_unique (run : MsRun) (id_ : List IdRow) (iso_to_do : List ℤ)
    (rt_tolerance mass_tolerance dc : ℚ)
    (hkeys : (id_.map IdRow.pep_id).Nodup) (i : ℕ) (hi : i < id_.length) :
    ((List.range id_.length).map
        (integrate_one run id_ iso_to_do rt_tolerance mass_tolerance dc)).filter
        (fun r => decide (r.pep_id = (id_.getD i ⟨0, 0, 0, 0⟩).pep_id))
      = [integrate_one run id_ iso_to_do rt_tolerance mass_tolerance dc i] := by
  rw [List.filter_map]
  have hcong : (List.range id_.length).filter
      ((fun r => decide (r.pep_id = (id_.getD i ⟨0, 0, 0, 0⟩).pep_id)) ∘
        (integrate_one run id_ iso_to_do rt_tolerance mass_tolerance dc))
      = (List.range id_.length).filter (fun j => decide (j = i)) := by
    apply List.filter_congr
    intro j hj
    have hj2 : j < id_.length := List.mem_range.mp hj
    simp only [Function.comp_apply, integrate_one_pep_id]
    rw [decide_eq_decide]
    rw [List.getD_eq_getElem _ _ hj2, List.getD_eq_getElem _ _ hi]
    constructor
    · intro he
      have hmap : (id_.map IdRow.pep_id).get ⟨j, by simpa using hj2⟩
          = (id_.map IdRow.pep_id).get ⟨i, by simpa using hi⟩ := by
        simp only [List.get_eq_getElem, List.getElem_map]
        exact he
      have := (hkeys.get_inj_iff).mp hmap
      simpa using this
    · intro he
      subst he
      rfl
  rw [hcong, range_filter_eq_single hi]
  simp

/-- A pandas left merge in which every left row matches exactly one right row
emits the left rows in order, each paired with its unique match. -/
theorem leftMerge_singleton (left : List IdRow) (right : List TaskResult)
    (g : IdRow → TaskResult)
    (hg : ∀ l ∈ left, right.filter (fun r => decide (r.pep_id = l.pep_id)) = [g l]) :
    leftMerge left right = left.map (fun l => (l, some (g l))) := by
  induction left with
  | nil => rfl
  | cons a tl ih =>
    have ha := hg a (List.mem_cons_self a tl)
    simp only [leftMerge] at ih ⊢
    rw [List.flatMap_cons, ha, ih (fun l hl => hg l (List.mem_cons_of_mem a hl))]
    rfl

/-- Slotting completed results back by index never changes the buffer
length. -/
theorem foldl_set_length (f : ℕ → TaskResult) (schedule : List ℕ) :
    ∀ acc : List (Option TaskResult),
      (schedule.foldl (fun acc j => acc.set j (some (f j))) acc).length = acc.length := by
  induction schedule with
  | nil => intro acc; rfl
  | cons a tl ih =>
    intro acc
    rw [List.foldl_cons, ih, List.length_set]

/-- After the completion loop, any slot that was either already correct or is
still scheduled holds its own task's result. -/
theorem foldl_set_get (f : ℕ → TaskResult) (schedule : List ℕ) :
    ∀ (acc : List (Option TaskResult)) (i : ℕ), i < acc.length →
      (acc[i]? = some (some (f i)) ∨ i ∈ schedule) →
      (schedule.foldl (fun acc j => acc.set j (some (f j))) acc)[i]? = some (some (f i)) := by
  induction schedule with
  | nil =>
    intro acc i _ h
    rcases h with h | h
    · exact h
    · cases h
  | cons a tl ih =>
    intro acc i hi h
    rw [List.foldl_cons]
    apply ih _ i (by rw [List.length_set]; exact hi)
    by_cases hia : i = a
    · subst hia
      exact Or.inl (List.getElem?_set_self hi)
    · rcases h with h | h
      · exact Or.inl ((List.getElem?_set_ne (fun he => hia he.symm)).trans h)
      · rcases List.mem_cons.mp h with h2 | h2
        · exact absurd h2 hia
        · exact Or.inr h2

/-- Any completion order that covers every task index produces the same
collected result list: the results in source-row order. -/
theorem pool_collect_valid (n : ℕ) (f : ℕ → TaskResult) (schedule : List ℕ)
    (hcov : ∀ i, i < n → i ∈ schedule) :
    pool_collect n f schedule = (List.range n).map (fun i => some (f i)) := by
  apply List.ext_getElem?
  intro i
  by_cases hi : i < n
  · rw [List.getElem?_map, List.getElem?_range hi]
    exact (foldl_set_get f schedule (List.replicate n none) i
      (by rw [List.length_replicate]; exact hi) (Or.inr (hcov i hi)))
  · have hlen : (pool_collect n f schedule).length = n := by
      rw [pool_collect, foldl_set_length, List.length_replicate]
    rw [List.getElem?_eq_none (by omega : (pool_collect n f schedule).length ≤ i),
      List.getElem?_eq_none (by simpa using (by omega : n ≤ i))]

/-! Claim theorems. -/

/-- C1: for every peptide with neutral monoisotopic mass `M` and charge
`z ≥ 1`, and any shift constant `c` (hydrogen in standard mode, the deuterium
constant in deuterium mode), the window calculator's target m/z for
isotopologue 0 is `(M + z·1.007825)/z`, and for isotopologue `k` it is the
isotopologue-0 target plus `k·c/z`. -/
theorem isotope_window_target_mz (c M z : ℚ) (k : ℤ) (_hz : 1 ≤ z) :
    isotopomer_mz c M z 0 = (M + z * 1.007825) / z ∧
    isotopomer_mz c M z k = isotopomer_mz c M z 0 + (k : ℚ) * c / z := by
  refine ⟨?_, ?_⟩
  · simp [isotopomer_mz, peptide_prec, hydrogen]
  · simp [isotopomer_mz]

/-- Witness for C1 at mass 1000, charge 2, isotopologue 1, hydrogen mode. -/
theorem isotope_window_witness :
    isotopomer_mz hydrogen 1000 2 0 = (1000 + 2 * 1.007825) / 2 ∧
    isotopomer_mz hydrogen 1000 2 1 = isotopomer_mz hydrogen 1000 2 0 + (1 : ℚ) * hydrogen / 2 :=
  isotope_window_target_mz hydrogen 1000 2 1 (by norm_num)

/-- C8: for every target m/z and every ppm tolerance, the window is
symmetric (`upper - target = target - lower`) with half-width
`target · (ppm/2)` on each side. -/
theorem tolerance_window_symmetric (c M z mt : ℚ) (iso : ℤ) :
    upper_bound c M z iso mt - isotopomer_mz c M z iso
      = isotopomer_mz c M z iso - lower_bound c M z iso mt ∧
    upper_bound c M z iso mt - isotopomer_mz c M z iso
      = isotopomer_mz c M z iso * (mt / 2) := by
  constructor
  · simp only [upper_bound, lower_bound]
    ring
  · simp only [upper_bound]
    ring

/-- C4: the intensity extractor sums exactly the peaks strictly inside
`(lower, upper)`: it equals the sum of the indicator-gated intensities, a
peak sitting exactly on `lower` or `upper` contributes nothing, and a peak
list with no peak strictly inside the window sums to 0. -/
theorem matching_int_strict_window (peaks : List (ℚ × ℚ)) (lower upper : ℚ) :
    matching_int peaks lower upper
        = (peaks.map (fun p => if lower < p.1 ∧ p.1 < upper then p.2 else 0)).sum ∧
    (∀ I rest, matching_int ((lower, I) :: rest) lower upper = matching_int rest lower upper
      ∧ matching_int ((upper, I) :: rest) lower upper = matching_int rest lower upper) ∧
    ((∀ p ∈ peaks, ¬(lower < p.1 ∧ p.1 < upper)) → matching_int peaks lower upper = 0)
    := by
  refine ⟨?_, ?_, ?_⟩
  · induction peaks with
    | nil => rfl
    | cons a t ih =>
      by_cases h : lower < a.1 ∧ a.1 < upper <;>
        simp [matching_int, List.filter_cons, h] at ih ⊢ <;> simp [ih]
  · intro I rest
    constructor <;> simp [matching_int, List.filter_cons]
  · intro h
    have hfil : peaks.filter (fun p => decide (lower < p.1 ∧ p.1 < upper)) = [] := by
      rw [List.filter_eq_nil_iff]
      intro p hp
      simpa using h p hp
    simp only [matching_int, hfil, List.map_nil, List.sum_nil]

/-- C2: the isotopologue integrator returns 0 on an empty profile, 0 on a
single sample, the trapezoid `(I0+I1)(t1-t0)/2` on two time-ordered samples
with non-negative intensities, clamps a negative computed area to 0, and
always returns exactly one non-negative area per requested isotopologue. -/
theorem integrator_edge_cases (t0 I0 t1 I1 : ℚ)
    (ht : t0 < t1) (hI0 : 0 ≤ I0) (hI1 : 0 ≤ I1) :
    iso_area [] = 0 ∧
    (∀ t I : ℚ, iso_area [(t, I)] = 0) ∧
    iso_area [(t0, I0), (t1, I1)] = (I0 + I1) * (t1 - t0) / 2 ∧
    (∀ profile, trapz profile < 0 → iso_area profile = 0) ∧
    (∀ (iso_to_do : List ℤ) (iot : List Sample),
      (integrate_isotope_intensity iso_to_do iot).length = iso_to_do.length ∧
      ∀ a ∈ integrate_isotope_intensity iso_to_do iot, 0 ≤ a) := by
  have harea : ∀ p : List (ℚ × ℚ), 0 ≤ iso_area p := by
    intro p
    unfold iso_area
    split
    · exact le_refl 0
    · exact le_max_right _ _
  refine ⟨rfl, ?_, ?_, ?_, ?_⟩
  · intro t I
    simp [iso_area, trapz]
  · have h2 : trapz [(t0, I0), (t1, I1)] = (t1 - t0) * (I0 + I1) / 2 := by
      simp [trapz]
    have hpos : 0 ≤ (t1 - t0) * (I0 + I1) / 2 := by
      apply div_nonneg _ (by norm_num)
      exact mul_nonneg (by linarith) (by linarith)
    simp [iso_area, h2, max_eq_left hpos]
    ring
  · intro profile hneg
    unfold iso_area
    split
    · rfl
    · exact max_eq_right hneg.le
  · intro iso iot
    refine ⟨by simp [integrate_isotope_intensity], ?_⟩
    intro a ha
    simp [integrate_isotope_intensity] at ha
    obtain ⟨j, _, rfl⟩ := ha
    exact harea _

/-- Witness for C2: the two samples (0 min, 1) and (1 min, 3) integrate to
the trapezoid area 2. -/
theorem integrator_witness :
    iso_area [((0 : ℚ), (1 : ℚ)), (1, 3)] = (1 + 3) * (1 - 0) / 2 :=
  (integrator_edge_cases 0 1 1 3 (by norm_num) (by norm_num) (by norm_num)).2.2.1

/-- C3 (code bug): on a spectral index whose scans are inserted out of
retention-time order, the selected samples keep insertion order
(10, 9, 11 min — not ascending), the integrator does not sort, and the
trapezoid is taken over the unsorted time axis, yielding area 1; the same
three samples sorted by retention time yield area 4. -/
theorem samples_not_time_sorted :
    ((get_isotopes_from_amrt outoforder_run [0] 5 1 1 1 1).map (fun l => l.map Sample.rt)
        = some [10, 9, 11]) ∧
    ¬ List.Sorted (fun a b => a ≤ b) [(10 : ℚ), 9, 11] ∧
    ((get_isotopes_from_amrt outoforder_run [0] 5 1 1 1 1).map
        (integrate_isotope_intensity [0]) = some [1]) ∧
    integrate_isotope_intensity [0]
        [⟨9, 0, 4, 80313/40000⟩, ⟨10, 0, 2, 80313/40000⟩, ⟨11, 0, 0, 80313/40000⟩] = [4] := by
  refine ⟨?_, ?_, ?_, ?_⟩
  · norm_num [get_isotopes_from_amrt, get_isotopes_from_amrt_c, outoforder_run,
      List.lookup, List.filter, List.flatMap, isotopomer_mz, peptide_prec, hydrogen]
  · simp [List.sorted_cons]
    norm_num
  · norm_num [get_isotopes_from_amrt, get_isotopes_from_amrt_c, outoforder_run,
      List.lookup, List.filter, List.flatMap, isotopomer_mz, peptide_prec, hydrogen,
      integrate_isotope_intensity, iso_area, trapz, matching_int,
      lower_bound, upper_bound, List.isEmpty_cons]
    simp
  · norm_num [integrate_isotope_intensity, iso_area, trapz, List.filter, matching_int]
    simp

/-- C7: the isotopologue request "0,0,20,6" resolves to `[0, 6]`; a request
aborts the run exactly when no token survives the `int()` filter and the
`≤ 15` cap; and any accepted result is sorted ascending, duplicate-free, and
holds exactly the capped values of the parseable tokens. -/
theorem iso_request_parsing :
    parse_iso_to_do "0,0,20,6" = some [0, 6] ∧
    (∀ s : String, parse_iso_to_do s = none ↔
      ((splitOnComma s.data).filterMap pyIntChars).filter (fun n => decide (n ≤ 15)) = []) ∧
    (∀ (s : String) (l : List ℤ), parse_iso_to_do s = some l →
      l.Sorted (fun a b => a ≤ b) ∧ l.Nodup ∧
      (∀ n : ℤ, n ∈ l ↔ n ≤ 15 ∧ ∃ t ∈ splitOnComma s.data, pyIntChars t = some n)) := by
  refine ⟨by decide, ?_, ?_⟩
  · intro s
    simp only [parse_iso_to_do]
    split
    · simp_all [List.isEmpty_iff]
      assumption
    · simp_all [List.isEmpty_iff]
  · intro s l h
    simp only [parse_iso_to_do] at h
    split at h
    · exact absurd h (by simp)
    · rw [Option.some_inj] at h
      subst h
      refine ⟨List.sorted_insertionSort _ _, ?_, ?_⟩
      · exact ((List.perm_insertionSort _ _).nodup_iff).2 (List.nodup_dedup _)
      · intro n
        rw [(List.perm_insertionSort _ _).mem_iff, List.mem_dedup, List.mem_filter,
          List.mem_filterMap]
        simp [and_comm]

/-- C9: a token that parses as a negative integer passes both filters (it is
trivially `≤ 15`), so the negative shift index lands in the final
isotopologue set. -/
theorem negative_iso_accepted (s : String) (t : List Char) (n : ℤ)
    (ht : t ∈ splitOnComma s.data) (hp : pyIntChars t = some n) (hn : n < 0) :
    ∃ l, parse_iso_to_do s = some l ∧ n ∈ l := by
  have hmem : n ∈ ((splitOnComma s.data).filterMap pyIntChars).filter
      (fun m => decide (m ≤ 15)) := by
    rw [List.mem_filter, List.mem_filterMap]
    exact ⟨⟨t, ht, hp⟩, by simp; omega⟩
  have hne : (((splitOnComma s.data).filterMap pyIntChars).filter
      (fun m => decide (m ≤ 15))).isEmpty = false := by
    cases hr : ((splitOnComma s.data).filterMap pyIntChars).filter
        (fun m => decide (m ≤ 15)) with
    | nil => rw [hr] at hmem; cases hmem
    | cons a l => rfl
  refine ⟨List.insertionSort (fun a b => a ≤ b)
      ((((splitOnComma s.data).filterMap pyIntChars).filter
        (fun m => decide (m ≤ 15))).dedup), ?_, ?_⟩
  · simp only [parse_iso_to_do, hne, Bool.false_eq_true, if_false]
  · rw [(List.perm_insertionSort _ _).mem_iff, List.mem_dedup]
    exact hmem

/-- Witness for C9: the request "-1,0" yields a set containing -1. -/
theorem negative_iso_witness :
    ∃ l, parse_iso_to_do "-1,0" = some l ∧ (-1 : ℤ) ∈ l :=
  negative_iso_accepted "-1,0" "-1".data (-1) (by decide) (by decide) (by decide)

/-- C10: the effective worker-pool size is `max(cpu_count·4, thread)` for any
parseable `--thread` value, is exactly `cpu_count·4` when the argument is 0
(the default standing for unset) or unparseable, and is never below
`cpu_count·4`. -/
theorem thread_pool_size (cpu : ℕ) :
    (∀ t : ℤ, num_threads cpu (some t) = max ((cpu : ℤ) * 4) t) ∧
    num_threads cpu (some 0) = (cpu : ℤ) * 4 ∧
    num_threads cpu none = (cpu : ℤ) * 4 ∧
    (∀ th : Option ℤ, (cpu : ℤ) * 4 ≤ num_threads cpu th) := by
  have h4 : (0 : ℤ) ≤ (cpu : ℤ) * 4 := by positivity
  refine ⟨?_, ?_, rfl, ?_⟩
  · intro t
    by_cases h : t = 0
    · subst h
      simp [num_threads, max_eq_left h4]
    · simp [num_threads, h]
  · simp [num_threads]
  · intro th
    match th with
    | none => exact le_refl _
    | some t =>
      simp only [num_threads]
      split
      · exact le_refl _
      · exact le_max_left _ _

/-- C5 (amended): for a fraction whose match list is non-empty and carries
pairwise-distinct peptide ids, the orchestrator yields a table with exactly
one row per match-list row, in match-list order, each joined to its own
task's result; and the pool's collected result list is the same for every
completion order covering all the tasks, i.e. for every pool size. -/
theorem fraction_rows_preserved (run : MsRun) (id_ : List IdRow) (iso_to_do : List ℤ)
    (rt_tolerance mass_tolerance dc : ℚ) (hne : id_ ≠ [])
    (hkeys : (id_.map IdRow.pep_id).Nodup) :
    ∃ out, runFraction run id_ iso_to_do rt_tolerance mass_tolerance dc = some out ∧
      out.length = id_.length ∧
      out.map Prod.fst = id_ ∧
      (∀ i, i < id_.length → out[i]? = id_[i]?.map
        (fun l => (l, some (integrate_one run id_ iso_to_do rt_tolerance mass_tolerance dc i)))) ∧
      (∀ schedule : List ℕ, (∀ i, i < id_.length → i ∈ schedule) →
        pool_collect id_.length
            (integrate_one run id_ iso_to_do rt_tolerance mass_tolerance dc) schedule
          = (List.range id_.length).map
              (fun i => some (integrate_one run id_ iso_to_do rt_tolerance mass_tolerance dc i))) := by
  have hg : ∀ l ∈ id_,
      (((List.range id_.length).map
          (integrate_one run id_ iso_to_do rt_tolerance mass_tolerance dc)).filter
        (fun r => decide (r.pep_id = l.pep_id)))
      = [(((List.range id_.length).map
            (integrate_one run id_ iso_to_do rt_tolerance mass_tolerance dc)).filter
          (fun r => decide (r.pep_id = l.pep_id))).headD ⟨0, 0, [], false⟩] := by
    intro l hl
    obtain ⟨⟨i, hi⟩, rfl⟩ := List.mem_iff_get.mp hl
    have hfil := results_filter_unique run id_ iso_to_do rt_tolerance mass_tolerance dc
      hkeys i hi
    rw [List.getD_eq_getElem _ _ hi] at hfil
    simp only [List.get_eq_getElem]
    rw [hfil]
    rfl
  have hmerge := leftMerge_singleton id_
    ((List.range id_.length).map
      (integrate_one run id_ iso_to_do rt_tolerance mass_tolerance dc))
    (fun l => (((List.range id_.length).map
        (integrate_one run id_ iso_to_do rt_tolerance mass_tolerance dc)).filter
      (fun r => decide (r.pep_id = l.pep_id))).headD ⟨0, 0, [], false⟩) hg
  refine ⟨id_.map (fun l => (l, some ((((List.range id_.length).map
      (integrate_one run id_ iso_to_do rt_tolerance mass_tolerance dc)).filter
        (fun r => decide (r.pep_id = l.pep_id))).headD ⟨0, 0, [], false⟩))),
    ?_, by simp, ?_, ?_, ?_⟩
  · rw [runFraction, if_neg (by simpa [List.isEmpty_iff] using hne)]
    rw [hmerge]
  · apply List.ext_getElem?
    intro i
    by_cases hi : i < id_.length
    · rw [List.getElem?_map, List.getElem?_map, List.getElem?_eq_getElem hi]
      rfl
    · rw [List.getElem?_eq_none (by simp; omega), List.getElem?_eq_none (by omega)]
  · intro i hi
    have hfil := results_filter_unique run id_ iso_to_do rt_tolerance mass_tolerance dc
      hkeys i hi
    rw [List.getD_eq_getElem _ _ hi] at hfil
    rw [List.getElem?_map, List.getElem?_eq_getElem hi, Option.map_some', Option.map_some']
    rw [hfil]
    rfl
  · intro schedule hcov
    exact pool_collect_valid id_.length _ schedule hcov

/-- Counterexample for C5 as stated: a fraction with an empty match list
produces no output table at all — `max(loop_)` on the empty range raises, so
the orchestration aborts instead of returning a zero-row table. -/
theorem empty_fraction_aborts :
    runFraction ⟨[], fun _ => 1, fun _ => []⟩ [] [0] 1 1 hydrogen = none := rfl

/-- Witness for C5's amended theorem on the two-row `demo_id`. -/
theorem fraction_rows_witness :
    ∃ out, runFraction demo_run demo_id [0] 1 1 hydrogen = some out ∧
      out.length = demo_id.length ∧
      out.map Prod.fst = demo_id ∧
      (∀ i, i < demo_id.length → out[i]? = demo_id[i]?.map
        (fun l => (l, some (integrate_one demo_run demo_id [0] 1 1 hydrogen i)))) ∧
      (∀ schedule : List ℕ, (∀ i, i < demo_id.length → i ∈ schedule) →
        pool_collect demo_id.length (integrate_one demo_run demo_id [0] 1 1 hydrogen)
            schedule
          = (List.range demo_id.length).map
              (fun i => some (integrate_one demo_run demo_id [0] 1 1 hydrogen i))) :=
  fraction_rows_preserved demo_run demo_id [0] 1 1 hydrogen (by decide) (by decide)

/-- C6: when row `i`'s anchor scan is absent from the spectral index, the
per-peptide task catches the lookup failure and returns the all-zero result
for that row with the warning flag set; any other row's result is unchanged
by whatever row `i` contains; and the fraction still completes. -/
theorem missing_anchor_zero_result (run : MsRun) (id_ : List IdRow) (iso_to_do : List ℤ)
    (rt_tolerance mass_tolerance dc : ℚ) (i : ℕ) (hi : i < id_.length)
    (hmiss : run.rt_idx.lookup (id_.getD i ⟨0, 0, 0, 0⟩).scan = none) :
    integrate_one run id_ iso_to_do rt_tolerance mass_tolerance dc i
        = { idx := i, pep_id := (id_.getD i ⟨0, 0, 0, 0⟩).pep_id,
            areas := iso_to_do.map (fun _ => 0), warned := true } ∧
    (∀ (row : IdRow) (j : ℕ), j ≠ i →
      integrate_one run (id_.set i row) iso_to_do rt_tolerance mass_tolerance dc j
        = integrate_one run id_ iso_to_do rt_tolerance mass_tolerance dc j) ∧
    (runFraction run id_ iso_to_do rt_tolerance mass_tolerance dc).isSome = true := by
  refine ⟨?_, ?_, ?_⟩
  · simp only [integrate_one, get_isotopes_from_amrt_c, hmiss, Option.map_none']
  · intro row j hj
    have hset : (id_.set i row).getD j ⟨0, 0, 0, 0⟩ = id_.getD j ⟨0, 0, 0, 0⟩ := by
      rw [List.getD_eq_getElem?_getD, List.getD_eq_getElem?_getD,
        List.getElem?_set_ne (fun he => hj he.symm)]
    simp only [integrate_one, hset]
  · rw [runFraction, if_neg]
    · rfl
    · simp only [List.isEmpty_iff]
      intro h
      rw [h] at hi
      simp at hi

/-- Witness for C6: in `demo_id6`, row 1's anchor scan 2 is missing; the task
returns the zero/warned result, the other row is untouched, and the fraction
completes. -/
theorem missing_anchor_witness :
    (integrate_one demo_run6 demo_id6 [0] 1 1 hydrogen 1
        = { idx := 1, pep_id := (demo_id6.getD 1 ⟨0, 0, 0, 0⟩).pep_id,
            areas := ([0] : List ℤ).map (fun _ => (0 : ℚ)), warned := true }) ∧
    (∀ (row : IdRow) (j : ℕ), j ≠ 1 →
      integrate_one demo_run6 (demo_id6.set 1 row) [0] 1 1 hydrogen j
        = integrate_one demo_run6 demo_id6 [0] 1 1 hydrogen j) ∧
    (runFraction demo_run6 demo_id6 [0] 1 1 hydrogen).isSome = true :=
  missing_anchor_zero_result demo_run6 demo_id6 [0] 1 1 hydrogen 1 (by decide) (by decide)

end Riana
